import Mathlib

/-!
# SPIRVTile: anchor selection, thread tiling, reduction marking, window unrolling

A shallow embedding of `compiler/src/iree/compiler/Codegen/SPIRV/SPIRVTile.cpp`.

* The IR is a tree of operations.  Every operation carries a handle (the
  `Operation *` of the source), `scf.if` has its own constructor (a then-block
  and an optional else-block), every other operation has a concrete kind and
  regions made of blocks made of operations.
* Attributes live in a store keyed by operation handle and attribute name.
* The rewrite engine (`tileConsumerAndFuseProducers`, `replaceAllUsesWith`,
  `applyPatternsAndFoldGreedily`, `loopUnrollByFactor`), the tile-size oracle
  `getTileSizes` and the constant `kNumGPUDims` are collaborators that are not
  part of this file; they are fields of `Env`.
* `assert` aborts, dereferencing a null handle aborts; both are kept apart from
  a `failure()` result.
-/

namespace SPIRVTile

/-! ## Operations -/

/-- Concrete operation classes other than `scf::IfOp`. -/
inductive OpKind where
  | FuncOp
  | ForOp
  | YieldOp
  | ConstantOp
  | ExtractSliceOp
  | FillOp
  | GenericOp
  | MatmulOp
  | BatchMatmulOp
  | MatvecOp
  | Conv1DNwcWcfOp
  | Conv2DNchwFchwOp
  | Conv2DNhwcHwcfOp
  | DepthwiseConv2DNhwcHwcOp
  | PoolingNhwcSumOp
  | SortOp
  deriving DecidableEq, Repr

/-- Kinds that are `linalg::LinalgOp` (the structured operations of the linalg dialect). -/
def OpKind.isLinalgOp : OpKind → Bool
  | .FillOp | .GenericOp | .MatmulOp | .BatchMatmulOp | .MatvecOp
  | .Conv1DNwcWcfOp | .Conv2DNchwFchwOp | .Conv2DNhwcHwcfOp
  | .DepthwiseConv2DNhwcHwcOp | .PoolingNhwcSumOp => true
  | _ => false

/-- Kinds that implement `TilingInterface`: the linalg structured operations
(through their external model) and `iree_linalg_ext.sort`, which is not a
`linalg::LinalgOp`. -/
def OpKind.isTilingInterface : OpKind → Bool
  | .SortOp => true
  | k => k.isLinalgOp

/-- Kinds that implement `linalg::ContractionOpInterface`. -/
def OpKind.isContractionOpInterface : OpKind → Bool
  | .MatmulOp | .BatchMatmulOp | .MatvecOp => true
  | _ => false

/-- Kinds that implement `linalg::ConvolutionOpInterface`. -/
def OpKind.isConvolutionOpInterface : OpKind → Bool
  | .Conv1DNwcWcfOp | .Conv2DNchwFchwOp | .Conv2DNhwcHwcfOp
  | .DepthwiseConv2DNhwcHwcOp | .PoolingNhwcSumOp => true
  | _ => false

/-- An operation of the IR.  `handle` stands for the address of the operation. -/
inductive Operation where
  | ifOp (handle : Nat) (thenBlock : List Operation) (elseBlock : Option (List Operation))
  | op (handle : Nat) (kind : OpKind) (regions : List (List (List Operation)))

namespace Operation

/-- The address of the operation. -/
def handle : Operation → Nat
  | .ifOp h _ _ => h
  | .op h _ _ => h

/-- Test `isa<scf::IfOp>`. -/
def isIfOp : Operation → Bool
  | .ifOp _ _ _ => true
  | .op _ _ _ => false

/-- The concrete kind of an operation that is not an `scf.if`. -/
def kind? : Operation → Option OpKind
  | .ifOp _ _ _ => none
  | .op _ k _ => some k

/-- Test `isa<linalg::LinalgOp>`. -/
def isLinalgOp : Operation → Bool
  | .ifOp _ _ _ => false
  | .op _ k _ => k.isLinalgOp

/-- Test `isa<TilingInterface>`. -/
def isTilingInterface : Operation → Bool
  | .ifOp _ _ _ => false
  | .op _ k _ => k.isTilingInterface

/-- Test `isa<linalg::ContractionOpInterface>`. -/
def isContractionOpInterface : Operation → Bool
  | .ifOp _ _ _ => false
  | .op _ k _ => k.isContractionOpInterface

/-- Test `isa<linalg::ConvolutionOpInterface>`. -/
def isConvolutionOpInterface : Operation → Bool
  | .ifOp _ _ _ => false
  | .op _ k _ => k.isConvolutionOpInterface

/-- Test `isa<linalg::GenericOp>`. -/
def isGenericOp : Operation → Bool
  | .op _ .GenericOp _ => true
  | _ => false

/-- The accessor `scf::IfOp::thenBlock()`; an operation that is not an `scf.if` has none. -/
def thenBlock : Operation → List Operation
  | .ifOp _ t _ => t
  | .op _ _ _ => []

/-- The accessor `scf::IfOp::elseBlock()`: null when the else region is empty. -/
def elseBlock : Operation → Option (List Operation)
  | .ifOp _ _ e => e
  | .op _ _ _ => none

end Operation

mutual
/-- All operations nested under an operation, itself included, in the
post-order of `Operation::walk`. -/
def Operation.walk : Operation → List Operation
  | .ifOp h t e => walkBlock t ++ walkElse e ++ [.ifOp h t e]
  | .op h k rs => walkRegions rs ++ [.op h k rs]
/-- Walk of the optional else-block of an `scf.if`. -/
def walkElse : Option (List Operation) → List Operation
  | none => []
  | some b => walkBlock b
/-- Walk of the regions of an operation. -/
def walkRegions : List (List (List Operation)) → List Operation
  | [] => []
  | r :: rs => walkRegion r ++ walkRegions rs
/-- Walk of the blocks of a region. -/
def walkRegion : List (List Operation) → List Operation
  | [] => []
  | b :: bs => walkBlock b ++ walkRegion bs
/-- Walk of the operations of a block. -/
def walkBlock : List Operation → List Operation
  | [] => []
  | o :: os => o.walk ++ walkBlock os
end

/-! ## Results and diagnostics -/

/-- The diagnostics this file emits. -/
inductive Diagnostic where
  | doesNotContainComputeOps
  | expectedNoMoreThanOneScfIf
  | failedTilingAndFusingProducers
  | failedTilingReductionDimensions
  | upperBoundShouldBeAConstant
  | failedUnrollingByFactor1
  deriving DecidableEq, Repr

/-- A `LogicalResult`; a failure may carry the diagnostic it was built from. -/
inductive LogicalResult where
  | success
  | failure (diag : Option Diagnostic)
  deriving DecidableEq, Repr

/-- Test `failed(result)`. -/
def failed : LogicalResult → Bool
  | .success => false
  | .failure _ => true

/-! ## Anchor selection -/

/-- The test `isa<linalg::LinalgOp, TilingInterface>(op)` of the branch scan. -/
def isComputeOp (op : Operation) : Bool :=
  op.isLinalgOp || op.isTilingInterface

/-- Modelled from the spec: `getComputeOps` (declared in `Codegen/Utils`, its
body is not among the sources).  It collects all computation operations of the
function, those that are linear-algebra-like or otherwise implement the tiling
capability, appending them to the output list, and fails when none is found. -/
def getComputeOps (funcOp : Operation) (computeOps : List Operation) :
    LogicalResult × List Operation :=
  match funcOp.walk.filter isComputeOp with
  | [] => (.failure none, computeOps)
  | found => (.success, computeOps ++ found)

/-- The loop `while (computeOps.size() > 1) computeOps.erase(computeOps.begin())`. -/
def eraseUntilOne : List Operation → List Operation
  | _ :: b :: rest => eraseUntilOne (b :: rest)
  | ops => ops

/-- The scan `for (op : llvm::reverse(block)) if (isa<...>(op)) { push_back; break; }`. -/
def pushLastComputeOp (block : List Operation) (computeOps : List Operation) :
    List Operation :=
  match block.reverse.find? isComputeOp with
  | some op => computeOps ++ [op]
  | none => computeOps

/-- The function `collectComputeOps`.  The first argument is the collaborator
`getComputeOps`; the result pairs the returned `LogicalResult` with the final
contents of the output parameter `computeOps`. -/
def collectComputeOps
    (getComputeOps : Operation → List Operation → LogicalResult × List Operation)
    (funcOp : Operation) (computeOps : List Operation) :
    LogicalResult × List Operation :=
  let ifOps := funcOp.walk.filter Operation.isIfOp
  if ifOps.isEmpty then
    let r := getComputeOps funcOp computeOps
    if failed r.1 then
      (.failure (some .doesNotContainComputeOps), r.2)
    else
      (.success, eraseUntilOne r.2)
  else if ifOps.length > 1 then
    (.failure (some .expectedNoMoreThanOneScfIf), computeOps)
  else
    match ifOps.head? with
    | none => (.success, computeOps)
    | some ifOp =>
      let computeOps := pushLastComputeOp ifOp.thenBlock computeOps
      let computeOps :=
        match ifOp.elseBlock with
        | some elseBlock => pushLastComputeOp elseBlock computeOps
        | none => computeOps
      (.success, computeOps)

/-- The last operation of a block that is linear-algebra-like or implements the
tiling capability, stated without the reverse scan. -/
def lastComputeOp? (block : List Operation) : Option Operation :=
  (block.filter isComputeOp).getLast?

/-! ## Example functions -/

/-- A function with a fill and a matmul and no `scf.if`. -/
def funcMatmul : Operation :=
  .op 0 .FuncOp [[[.op 1 .ConstantOp [], .op 2 .FillOp [], .op 3 .MatmulOp []]]]

/-- A function without any computation operation and without `scf.if`. -/
def funcNoCompute : Operation :=
  .op 0 .FuncOp [[[.op 1 .ConstantOp [], .op 2 .ExtractSliceOp []]]]

/-- A function with one `scf.if` whose two blocks each end in a generic
operation followed by the terminator. -/
def funcFastSlow : Operation :=
  .op 0 .FuncOp [[[
    .op 1 .ConstantOp [],
    .ifOp 2
      [.op 3 .FillOp [], .op 4 .GenericOp [], .op 5 .YieldOp []]
      (some [.op 6 .ExtractSliceOp [], .op 7 .GenericOp [], .op 8 .YieldOp []])]]]

/-- A function with two `scf.if`, the second nested in a loop. -/
def funcTwoBranches : Operation :=
  .op 0 .FuncOp [[[
    .ifOp 1 [.op 2 .MatmulOp [], .op 3 .YieldOp []] none,
    .op 4 .ForOp [[[.ifOp 5 [.op 6 .GenericOp [], .op 7 .YieldOp []] none]]]]]]

/-! ## Attributes, loops and the rewrite engine -/

/-- The attribute names this file writes: `getSPIRVDistributeAttrName()` and
`LinalgTransforms::kLinalgTransformMarker`. -/
inductive AttrName where
  | spirvDistribute
  | kLinalgTransformMarker
  deriving DecidableEq, Repr

/-- The attribute values this file writes: `builder.getIndexAttr(dim)` and the
string attribute holding `getTileReductionMarker()`. -/
inductive Attribute where
  | IndexAttr (value : Int)
  | tileReductionMarker
  deriving DecidableEq, Repr

/-- The function under transformation: its operation tree and the attributes of
every operation, keyed by handle. -/
structure IR where
  funcOp : Operation
  attrs : Nat → AttrName → Option Attribute

/-- The call `op->setAttr(name, value)` on the operation with the given handle. -/
def IR.setAttr (ir : IR) (handle : Nat) (name : AttrName) (value : Attribute) : IR :=
  { ir with attrs := fun h n => if h = handle ∧ n = name then some value else ir.attrs h n }

/-- An SSA value as seen by `matchPattern(value, m_Constant(&attr))`. -/
inductive Value where
  | constant (value : Int)
  | dynamic
  deriving DecidableEq, Repr

/-- A handle on an `scf.for` with its bounds. -/
structure ForOp where
  handle : Nat
  lowerBound : Value
  upperBound : Value
  step : Value
  deriving DecidableEq, Repr

/-- A `linalg::TileLoopNest`: `loopOps` is `getLoopOps()`, outermost loop first. -/
structure TileLoopNest where
  loopOps : List ForOp
  deriving DecidableEq, Repr

/-- The pattern sets this file hands to `applyPatternsAndFoldGreedily`. -/
inductive PatternSet where
  | tilingReduction (kinds : List OpKind)
  | extractSliceOfPadTensorSwap
  | concretizePadResultShape
  | decomposeConvolution
  deriving DecidableEq, Repr

/-- The collaborators of this file. -/
structure Env where
  kNumGPUDims : Nat
  getComputeOps : Operation → List Operation → LogicalResult × List Operation
  getTileSizes : IR → Operation → Nat → List Int
  tileConsumerAndFuseProducers :
    IR → Operation → List Int → List Int → Option (TileLoopNest × IR)
  replaceAllUsesWith : IR → Operation → TileLoopNest → IR
  applyPatternsAndFoldGreedily : PatternSet → IR → LogicalResult × IR
  loopUnrollByFactor : IR → ForOp → Nat → LogicalResult × IR

/-- Ways in which execution stops without returning. -/
inductive Abort where
  | assertion
  | nullDereference
  deriving DecidableEq, Repr

/-- The outcome of a function that returns a `LogicalResult` and rewrites the IR. -/
inductive Exec (α : Type) where
  | ok (value : α)
  | failure (diag : Option Diagnostic)
  | abort (why : Abort)

/-! ## Thread tiling -/

/-- The cast `dyn_cast<linalg::LinalgOp>(op)`: null when the operation is not a linalg op. -/
def dyn_cast (op : Operation) : Option Operation :=
  if op.isLinalgOp then some op else none

/-- The loop `for (int i = loops.size() - 1, dim = 0; i >= 0; --i)
loops[i]->setAttr(attrName, builder.getIndexAttr(dim++))`; the first argument
after the loops is `i + 1`. -/
def distributeLoops (loops : List ForOp) : Nat → Int → IR → IR
  | 0, _, ir => ir
  | i + 1, dim, ir =>
    match loops[i]? with
    | some loop =>
      distributeLoops loops i (dim + 1) (ir.setAttr loop.handle .spirvDistribute (.IndexAttr dim))
    | none => distributeLoops loops i (dim + 1) ir

/-- The sequence `llvm::seq<int64_t>(0, n)`. -/
def identityLoopOrder (n : Nat) : List Int :=
  (List.range n).map Int.ofNat

/-- The function `tileAndDistributeToThreads`; `consumerOp` is `none` for a null handle. -/
def tileAndDistributeToThreads (env : Env) (ir : IR) (consumerOp : Option Operation) :
    Exec IR :=
  match consumerOp with
  | none => .abort .nullDereference
  | some consumerOp =>
    let tileSizes := env.getTileSizes ir consumerOp 1
    match env.tileConsumerAndFuseProducers ir consumerOp tileSizes
        (identityLoopOrder tileSizes.length) with
    | none => .failure (some .failedTilingAndFusingProducers)
    | some (loopNest, ir) =>
      let ir := env.replaceAllUsesWith ir consumerOp loopNest
      let loops := loopNest.loopOps
      if loops.length ≤ env.kNumGPUDims then
        .ok (distributeLoops loops loops.length 0 ir)
      else
        .abort .assertion

/-! ## Reduction tiling -/

/-- The operation classes `populateTilingReductionPatterns` registers tiling patterns for. -/
def tilingReductionKinds : List OpKind :=
  [.BatchMatmulOp, .Conv2DNchwFchwOp, .Conv2DNhwcHwcfOp, .DepthwiseConv2DNhwcHwcOp,
   .GenericOp, .MatmulOp]

/-- The function `populateTilingReductionPatterns`. -/
def populateTilingReductionPatterns : PatternSet :=
  .tilingReduction tilingReductionKinds

/-- The condition under which the walk of `tileReduction` sets the marker. -/
def getsReductionMarker (op : Operation) : Bool :=
  op.isContractionOpInterface || op.isConvolutionOpInterface || op.isGenericOp

/-- The marking walk of `tileReduction`: `funcOp.walk([&](linalg::LinalgOp op) {...})`. -/
def setReductionMarkers (ir : IR) : IR :=
  (ir.funcOp.walk.filter Operation.isLinalgOp).foldl
    (fun ir op =>
      if getsReductionMarker op then
        ir.setAttr op.handle .kLinalgTransformMarker .tileReductionMarker
      else ir)
    ir

/-- The function `tileReduction`. -/
def tileReduction (env : Env) (ir : IR) : Exec IR :=
  let ir := setReductionMarkers ir
  match env.applyPatternsAndFoldGreedily populateTilingReductionPatterns ir with
  | (.failure _, _) => .failure (some .failedTilingReductionDimensions)
  | (.success, ir) => .ok ir

/-! ## Padding -/

/-- The function `fusePadIntoConsumer`; the result of the pattern driver is dropped. -/
def fusePadIntoConsumer (env : Env) (ir : IR) : IR :=
  (env.applyPatternsAndFoldGreedily .extractSliceOfPadTensorSwap ir).2

/-- The function `concretizePadShape`; the result of the pattern driver is dropped. -/
def concretizePadShape (env : Env) (ir : IR) : IR :=
  (env.applyPatternsAndFoldGreedily .concretizePadResultShape ir).2

/-! ## Convolution window tiling -/

/-- The conversion of `ub.getInt()`, an `int64_t`, to the `uint64_t` parameter
`unrollFactor` of `loopUnrollByFactor`. -/
def toUInt64 (value : Int) : Nat :=
  (value % 2 ^ 64).toNat

/-- The block `if (!loopNest->getLoopOps().empty()) {...}` of
`tileAndUnrollConvWindow` up to the call of `loopUnrollByFactor`: the loop and
the unroll factor handed to that call, `none` when there is no loop. -/
def unrollRequest (loopNest : TileLoopNest) : Exec (Option (ForOp × Nat)) :=
  match loopNest.loopOps with
  | [] => .ok none
  | loopOp :: _ =>
    if loopNest.loopOps.length = 1 then
      match loopOp.upperBound with
      | .dynamic => .failure (some .upperBoundShouldBeAConstant)
      | .constant ub => .ok (some (loopOp, toUInt64 ub))
    else
      .abort .assertion

/-- One iteration of the loop over `convOps` in `tileAndUnrollConvWindow`. -/
def tileAndUnrollConvOp (env : Env) (ir : IR) (convOp : Operation) : Exec IR :=
  if convOp.isLinalgOp then
    let tileSizes := env.getTileSizes ir convOp 3
    match env.tileConsumerAndFuseProducers ir convOp tileSizes
        (identityLoopOrder tileSizes.length) with
    | none => .failure (some .failedTilingAndFusingProducers)
    | some (loopNest, ir) =>
      let ir := env.replaceAllUsesWith ir convOp loopNest
      match unrollRequest loopNest with
      | .abort why => .abort why
      | .failure diag => .failure diag
      | .ok none => .ok ir
      | .ok (some (loopOp, unrollFactor)) =>
        match env.loopUnrollByFactor ir loopOp unrollFactor with
        | (.failure _, _) => .failure (some .failedUnrollingByFactor1)
        | (.success, ir) => .ok ir
  else
    .abort .assertion

/-- The loop `for (convOp : convOps)` of `tileAndUnrollConvWindow`. -/
def tileAndUnrollConvOps (env : Env) : IR → List Operation → Exec IR
  | ir, [] => .ok ir
  | ir, convOp :: rest =>
    match tileAndUnrollConvOp env ir convOp with
    | .ok ir => tileAndUnrollConvOps env ir rest
    | .failure diag => .failure diag
    | .abort why => .abort why

/-- The function `tileAndUnrollConvWindow`: the convolutions are collected
before any of them is rewritten. -/
def tileAndUnrollConvWindow (env : Env) (ir : IR) : Exec IR :=
  let convOps := ir.funcOp.walk.filter Operation.isConvolutionOpInterface
  tileAndUnrollConvOps env ir convOps

/-- The stages of `runOnOperation`. -/
inductive Stage where
  | anchorSelection
  | threadTiling (anchor : Operation)
  | padFusion
  | padShapeConcretization
  | reductionTiling
  | convWindowTiling
  | convDownsizing

/-- How a stage ended. -/
inductive Outcome where
  | success
  | failure
  | abort
  deriving DecidableEq, Repr

/-- How the pass ended: it ran to its end, it called `signalPassFailure()`, or
execution was aborted. -/
inductive PassResult where
  | completed
  | signalPassFailure
  | aborted (why : Abort)
  deriving DecidableEq, Repr

/-- A run of the pass: the stages entered, in order, each with its outcome, and
how the pass ended. -/
structure Run where
  trace : List (Stage × Outcome)
  result : PassResult

/-- The loop `for (computeOp : computeOps)` of `runOnOperation`, with the
stages it enters. -/
def tileComputeOps (env : Env) : IR → List Operation → List (Stage × Outcome) × Exec IR
  | ir, [] => ([], .ok ir)
  | ir, computeOp :: rest =>
    let consumerOp := dyn_cast computeOp
    match tileAndDistributeToThreads env ir consumerOp with
    | .ok ir =>
      let r := tileComputeOps env ir rest
      ((.threadTiling computeOp, .success) :: r.1, r.2)
    | .failure diag => ([(.threadTiling computeOp, .failure)], .failure diag)
    | .abort why => ([(.threadTiling computeOp, .abort)], .abort why)

/-- The function `SPIRVTilePass::runOnOperation` on the function `ir`. -/
def runOnOperation (env : Env) (ir : IR) : Run :=
  let r := collectComputeOps env.getComputeOps ir.funcOp []
  if failed r.1 then
    ⟨[(.anchorSelection, .failure)], .signalPassFailure⟩
  else
    let computeOps := r.2
    let t := [(Stage.anchorSelection, Outcome.success)]
    if computeOps.length ≤ 2 then
      match tileComputeOps env ir computeOps with
      | (ts, .failure _) => ⟨t ++ ts, .signalPassFailure⟩
      | (ts, .abort why) => ⟨t ++ ts, .aborted why⟩
      | (ts, .ok ir) =>
        let t := t ++ ts
        let ir := fusePadIntoConsumer env ir
        let t := t ++ [(.padFusion, .success)]
        let ir := concretizePadShape env ir
        let t := t ++ [(.padShapeConcretization, .success)]
        match tileReduction env ir with
        | .failure _ => ⟨t ++ [(.reductionTiling, .failure)], .signalPassFailure⟩
        | .abort why => ⟨t ++ [(.reductionTiling, .abort)], .aborted why⟩
        | .ok ir =>
          let t := t ++ [(.reductionTiling, .success)]
          let ir := fusePadIntoConsumer env ir
          let t := t ++ [(.padFusion, .success)]
          match tileAndUnrollConvWindow env ir with
          | .failure _ => ⟨t ++ [(.convWindowTiling, .failure)], .signalPassFailure⟩
          | .abort why => ⟨t ++ [(.convWindowTiling, .abort)], .aborted why⟩
          | .ok ir =>
            let t := t ++ [(.convWindowTiling, .success)]
            let ir := concretizePadShape env ir
            let t := t ++ [(.padShapeConcretization, .success)]
            let _ir := (env.applyPatternsAndFoldGreedily .decomposeConvolution ir).2
            ⟨t ++ [(.convDownsizing, .success)], .completed⟩
    else
      ⟨t, .aborted .assertion⟩

/-- A function whose only `scf.if` holds a sort, which implements the tiling
interface and is not a linalg operation. -/
def funcSortInBranch : Operation :=
  .op 0 .FuncOp [[[.ifOp 1 [.op 2 .SortOp [], .op 3 .YieldOp []] none]]]

/-- A function with a 1-D convolution. -/
def funcConv1D : Operation :=
  .op 0 .FuncOp [[[.op 1 .FillOp [], .op 2 .Conv1DNwcWcfOp []]]]

/-- An attribute store without any attribute. -/
def noAttrs : Nat → AttrName → Option Attribute :=
  fun _ _ => none

/-- A rewrite engine for the examples: thread tiling makes two loops over a
16 by 16 iteration space with tile size 8, window tiling makes one loop with
unit step, the pattern driver and the unroller succeed. -/
def exampleEnv : Env where
  kNumGPUDims := 3
  getComputeOps := getComputeOps
  getTileSizes := fun _ _ level => if level = 1 then [8, 8, 0] else [0, 1, 0, 0]
  tileConsumerAndFuseProducers := fun ir _ tileSizes _ =>
    if tileSizes = [8, 8, 0] then
      some (⟨[⟨100, .constant 0, .constant 16, .constant 8⟩,
              ⟨101, .constant 0, .constant 16, .constant 8⟩]⟩, ir)
    else
      some (⟨[⟨102, .constant 0, .constant 4, .constant 1⟩]⟩, ir)
  replaceAllUsesWith := fun ir _ _ => ir
  applyPatternsAndFoldGreedily := fun _ ir => (.success, ir)
  loopUnrollByFactor := fun ir _ _ => (.success, ir)

theorem eraseUntilOne_length_le (ops : List Operation) : (eraseUntilOne ops).length ≤ 1 := by
  induction ops with
  | nil => simp [eraseUntilOne]
  | cons a rest ih =>
    cases rest with
    | nil => simp [eraseUntilOne]
    | cons b rest => simpa [eraseUntilOne] using ih

theorem eraseUntilOne_eq_getLast (ops : List Operation) (h : ops ≠ []) :
    eraseUntilOne ops = [ops.getLast h] := by
  induction ops with
  | nil => exact absurd rfl h
  | cons a rest ih =>
    cases rest with
    | nil => simp [eraseUntilOne]
    | cons b rest =>
      have := ih (by simp)
      simpa [eraseUntilOne, List.getLast_cons] using this

theorem pushLastComputeOp_length_le (block computeOps : List Operation) :
    (pushLastComputeOp block computeOps).length ≤ computeOps.length + 1 := by
  unfold pushLastComputeOp
  split <;> simp

theorem find?_reverse_eq_lastComputeOp? (block : List Operation) :
    block.reverse.find? isComputeOp = lastComputeOp? block := by
  unfold lastComputeOp?
  induction block with
  | nil => simp
  | cons a rest ih =>
    rw [List.reverse_cons, List.find?_append, ih]
    by_cases ha : isComputeOp a = true
    · rw [List.filter_cons_of_pos ha]
      cases hf : rest.filter isComputeOp with
      | nil => simp [ha]
      | cons b l =>
        obtain ⟨x, hx⟩ : ∃ x, (b :: l).getLast? = some x :=
          ⟨_, List.getLast?_eq_getLast _ (by simp)⟩
        rw [List.getLast?_cons_cons, hx]
        simp
    · rw [List.filter_cons_of_neg ha]
      simp [ha]

theorem pushLastComputeOp_eq (block computeOps : List Operation) :
    pushLastComputeOp block computeOps = computeOps ++ (lastComputeOp? block).toList := by
  unfold pushLastComputeOp
  rw [find?_reverse_eq_lastComputeOp?]
  cases lastComputeOp? block <;> simp

theorem lastComputeOp?_isSome_of_mem (block : List Operation) (o : Operation)
    (hmem : o ∈ block) (ho : isComputeOp o = true) : (lastComputeOp? block).isSome = true := by
  unfold lastComputeOp?
  have hne : block.filter isComputeOp ≠ [] :=
    List.ne_nil_of_mem (List.mem_filter.mpr ⟨hmem, ho⟩)
  cases hf : block.filter isComputeOp with
  | nil => exact absurd hf hne
  | cons b l => simp [List.getLast?_cons]

theorem isComputeOp_of_isGenericOp (o : Operation) (h : o.isGenericOp = true) :
    isComputeOp o = true := by
  cases o with
  | ifOp _ _ _ => simp [Operation.isGenericOp] at h
  | op _ k _ =>
    cases k <;> simp_all [Operation.isGenericOp, isComputeOp, Operation.isLinalgOp,
      OpKind.isLinalgOp]

/-! ## Anchor selection: claims -/

theorem collectComputeOps_length_le_two_of_success
    (getOps : Operation → List Operation → LogicalResult × List Operation)
    (funcOp : Operation)
    (hok : (collectComputeOps getOps funcOp []).1 = .success) :
    (collectComputeOps getOps funcOp []).2.length ≤ 2 := by
  unfold collectComputeOps at hok ⊢
  simp only at hok ⊢
  split
  · split
    · rename_i h1 h2
      simp [h1, h2] at hok
    · exact Nat.le_succ_of_le (eraseUntilOne_length_le _)
  · split
    · rename_i h1 h2
      simp [h1, h2] at hok
    · split
      · simp
      · rename_i ifOp _
        cases ifOp.elseBlock with
        | none =>
          simpa using Nat.le_succ_of_le (pushLastComputeOp_length_le ifOp.thenBlock [])
        | some eb =>
          have h1 := pushLastComputeOp_length_le ifOp.thenBlock []
          have h2 := pushLastComputeOp_length_le eb (pushLastComputeOp ifOp.thenBlock [])
          simp only [List.length_nil] at h1
          show (pushLastComputeOp eb (pushLastComputeOp ifOp.thenBlock [])).length ≤ 2
          omega

/-- C1: called with an empty output list, a successful `collectComputeOps`
leaves at most two operations in the list, whatever `getComputeOps` does and
whether the function has no `scf.if` or exactly one; the assertion
`computeOps.size() <= 2` of `runOnOperation` therefore holds. -/
theorem collectComputeOps_size_le_two
    (getOps : Operation → List Operation → LogicalResult × List Operation)
    (funcOp : Operation)
    (hok : (collectComputeOps getOps funcOp []).1 = .success) :
    (collectComputeOps getOps funcOp []).2.length ≤ 2 :=
  collectComputeOps_length_le_two_of_success getOps funcOp hok

/-- Witness of C1 on the function with a fast and a slow path. -/
theorem collectComputeOps_size_le_two_witness :
    (collectComputeOps getComputeOps funcFastSlow []).1 = .success ∧
    (collectComputeOps getComputeOps funcFastSlow []).2.length ≤ 2 :=
  ⟨rfl, collectComputeOps_size_le_two getComputeOps funcFastSlow rfl⟩

/-- C2: a function without `scf.if` and without any computation operation makes
`collectComputeOps` fail with "does not contain compute ops"; the result is
never a success with an empty anchor list. -/
theorem collectComputeOps_no_compute_ops (funcOp : Operation) (computeOps : List Operation)
    (hif : funcOp.walk.filter Operation.isIfOp = [])
    (hnone : funcOp.walk.filter isComputeOp = []) :
    collectComputeOps getComputeOps funcOp computeOps
        = (.failure (some .doesNotContainComputeOps), computeOps) ∧
      (collectComputeOps getComputeOps funcOp computeOps).1 ≠ .success := by
  have h : collectComputeOps getComputeOps funcOp computeOps
      = (.failure (some .doesNotContainComputeOps), computeOps) := by
    simp [collectComputeOps, getComputeOps, hif, hnone, failed]
  rw [h]
  exact ⟨rfl, by simp⟩

/-- Witness of C2 on a function made of a constant and a slice. -/
theorem collectComputeOps_no_compute_ops_witness :
    collectComputeOps getComputeOps funcNoCompute []
        = (.failure (some .doesNotContainComputeOps), []) ∧
      (collectComputeOps getComputeOps funcNoCompute []).1 ≠ .success :=
  collectComputeOps_no_compute_ops funcNoCompute [] rfl rfl

/-- C3: when the walk of the function meets two or more `scf.if`, at any depth,
`collectComputeOps` fails with "expected to contain no more than one scf.if
ops" and leaves the output list as it was. -/
theorem collectComputeOps_multiple_branches
    (getOps : Operation → List Operation → LogicalResult × List Operation)
    (funcOp : Operation) (computeOps : List Operation)
    (hif : 2 ≤ (funcOp.walk.filter Operation.isIfOp).length) :
    collectComputeOps getOps funcOp computeOps
      = (.failure (some .expectedNoMoreThanOneScfIf), computeOps) := by
  unfold collectComputeOps
  simp only
  have hne : (funcOp.walk.filter Operation.isIfOp).isEmpty = false := by
    cases h : funcOp.walk.filter Operation.isIfOp with
    | nil => simp [h] at hif
    | cons a l => rfl
  have hgt : (funcOp.walk.filter Operation.isIfOp).length > 1 := by omega
  simp [hne, hgt]

/-- Witness of C3 on a function whose second `scf.if` is nested in a loop. -/
theorem collectComputeOps_multiple_branches_witness :
    2 ≤ (funcTwoBranches.walk.filter Operation.isIfOp).length ∧
    collectComputeOps getComputeOps funcTwoBranches []
      = (.failure (some .expectedNoMoreThanOneScfIf), []) :=
  ⟨by decide, collectComputeOps_multiple_branches getComputeOps funcTwoBranches [] (by decide)⟩

/-- C4: without `scf.if`, when `getComputeOps` succeeds and leaves a non-empty
list `found`, `collectComputeOps` succeeds with exactly one operation, the last
of `found`; all earlier ones are erased. -/
theorem collectComputeOps_keeps_last
    (getOps : Operation → List Operation → LogicalResult × List Operation)
    (funcOp : Operation) (found : List Operation)
    (hif : funcOp.walk.filter Operation.isIfOp = [])
    (hget : getOps funcOp [] = (.success, found))
    (hne : found ≠ []) :
    collectComputeOps getOps funcOp [] = (.success, [found.getLast hne]) := by
  simp [collectComputeOps, hif, hget, failed, eraseUntilOne_eq_getLast found hne]

/-- Witness of C4: of the fill and the matmul only the matmul is kept. -/
theorem collectComputeOps_keeps_last_witness :
    collectComputeOps getComputeOps funcMatmul [] = (.success, [.op 3 .MatmulOp []]) :=
  collectComputeOps_keeps_last getComputeOps funcMatmul
    [.op 2 .FillOp [], .op 3 .MatmulOp []] rfl rfl (by simp)

/-- C5: with exactly one `scf.if`, `collectComputeOps` succeeds and returns the
last computation operation of the then-block, if there is one, followed by the
last computation operation of the else-block, if that block exists and has
one: at most one anchor per branch.  When both blocks hold a generic operation
the list has length two. -/
theorem collectComputeOps_one_branch
    (getOps : Operation → List Operation → LogicalResult × List Operation)
    (funcOp ifOp : Operation)
    (hif : funcOp.walk.filter Operation.isIfOp = [ifOp]) :
    collectComputeOps getOps funcOp []
        = (.success, (lastComputeOp? ifOp.thenBlock).toList
            ++ (ifOp.elseBlock.bind lastComputeOp?).toList) ∧
      ((∃ o ∈ ifOp.thenBlock, o.isGenericOp = true) →
        (∃ eb, ifOp.elseBlock = some eb ∧ ∃ o ∈ eb, o.isGenericOp = true) →
        (collectComputeOps getOps funcOp []).2.length = 2) := by
  have heq : collectComputeOps getOps funcOp []
      = (.success, (lastComputeOp? ifOp.thenBlock).toList
          ++ (ifOp.elseBlock.bind lastComputeOp?).toList) := by
    unfold collectComputeOps
    simp only [hif, List.isEmpty_cons, List.length_singleton, List.head?_cons]
    cases he : ifOp.elseBlock with
    | none => simp [pushLastComputeOp_eq]
    | some eb => simp [pushLastComputeOp_eq]
  refine ⟨heq, ?_⟩
  rintro ⟨o, hmem, hgen⟩ ⟨eb, he, o', hmem', hgen'⟩
  have h1 := lastComputeOp?_isSome_of_mem _ o hmem (isComputeOp_of_isGenericOp o hgen)
  have h2 := lastComputeOp?_isSome_of_mem _ o' hmem' (isComputeOp_of_isGenericOp o' hgen')
  rw [heq, he]
  obtain ⟨a, ha⟩ := Option.isSome_iff_exists.mp h1
  obtain ⟨b, hb⟩ := Option.isSome_iff_exists.mp h2
  simp [ha, hb]

/-- Witness of C5: the two generic operations of the fast and the slow path
are returned, then-block first, and the list has length two. -/
theorem collectComputeOps_one_branch_witness :
    collectComputeOps getComputeOps funcFastSlow []
        = (.success, [.op 4 .GenericOp [], .op 7 .GenericOp []]) ∧
      (collectComputeOps getComputeOps funcFastSlow []).2.length = 2 :=
  have h := collectComputeOps_one_branch getComputeOps funcFastSlow
    (.ifOp 2
      [.op 3 .FillOp [], .op 4 .GenericOp [], .op 5 .YieldOp []]
      (some [.op 6 .ExtractSliceOp [], .op 7 .GenericOp [], .op 8 .YieldOp []]))
    rfl
  ⟨h.1, h.2 ⟨.op 4 .GenericOp [], by simp [Operation.thenBlock], rfl⟩
    ⟨_, rfl, .op 7 .GenericOp [], by simp, rfl⟩⟩

/-! ## Thread tiling: distribution tags -/

theorem handle_ne_of_nodup (loops : List ForOp) (hnd : (loops.map ForOp.handle).Nodup)
    {i j : Nat} {a b : ForOp} (hij : i < j)
    (ha : loops[i]? = some a) (hb : loops[j]? = some b) : a.handle ≠ b.handle := by
  have hj : j < (loops.map ForOp.handle).length := by
    rw [List.length_map]
    exact (List.getElem?_eq_some.mp hb).1
  have h := List.nodup_iff_getElem?_ne_getElem?.mp hnd i j hij hj
  intro heq
  apply h
  simp [List.getElem?_map, ha, hb, heq]

theorem distributeLoops_attrs (loops : List ForOp) (hnd : (loops.map ForOp.handle).Nodup) :
    ∀ (n : Nat) (dim : Int) (ir : IR),
      (∀ i loop, i < n → loops[i]? = some loop →
        (distributeLoops loops n dim ir).attrs loop.handle .spirvDistribute
          = some (.IndexAttr (dim + ((n : Int) - 1 - (i : Int))))) ∧
      (∀ h, (∀ i loop, i < n → loops[i]? = some loop → loop.handle ≠ h) →
        (distributeLoops loops n dim ir).attrs h .spirvDistribute
          = ir.attrs h .spirvDistribute) := by
  intro n
  induction n with
  | zero =>
    intro dim ir
    exact ⟨fun i _ hi => absurd hi (Nat.not_lt_zero i), fun _ _ => rfl⟩
  | succ k ih =>
    intro dim ir
    cases hk : loops[k]? with
    | none =>
      have hstep : distributeLoops loops (k + 1) dim ir = distributeLoops loops k (dim + 1) ir := by
        simp [distributeLoops, hk]
      rw [hstep]
      obtain ⟨ih1, ih2⟩ := ih (dim + 1) ir
      refine ⟨?_, ?_⟩
      · intro i loop hi hl
        have hik : i ≠ k := by
          intro h
          rw [h, hk] at hl
          exact Option.noConfusion hl
        have hlt : i < k := by omega
        rw [ih1 i loop hlt hl]
        congr 2
        push_cast
        ring
      · intro h hne
        exact ih2 h (fun i loop hi hl => hne i loop (by omega) hl)
    | some lk =>
      have hstep : distributeLoops loops (k + 1) dim ir
          = distributeLoops loops k (dim + 1)
              (ir.setAttr lk.handle .spirvDistribute (.IndexAttr dim)) := by
        simp [distributeLoops, hk]
      rw [hstep]
      obtain ⟨ih1, ih2⟩ := ih (dim + 1) (ir.setAttr lk.handle .spirvDistribute (.IndexAttr dim))
      refine ⟨?_, ?_⟩
      · intro i loop hi hl
        by_cases hik : i = k
        · subst hik
          rw [hk] at hl
          cases hl
          rw [ih2 lk.handle (fun j lj hj hlj => handle_ne_of_nodup loops hnd hj hlj hk)]
          simp [IR.setAttr]
        · have hlt : i < k := by omega
          rw [ih1 i loop hlt hl]
          congr 2
          push_cast
          ring
      · intro h hne
        rw [ih2 h (fun i loop hi hl => hne i loop (by omega) hl)]
        have : lk.handle ≠ h := hne k lk (by omega) hk
        simp [IR.setAttr, Ne.symm this]

/-- C6: when thread tiling succeeds with a nest of `k` distinct loops, listed
outermost first, `k` at most `kNumGPUDims`, `tileAndDistributeToThreads` returns
success and the loop at position `i` carries the distribution dimension
`k - 1 - i`: the innermost loop carries 0, and read from the innermost loop
outwards the tags are 0, 1, ..., k-1, without gap or duplicate. -/
theorem tileAndDistributeToThreads_tags (env : Env) (ir ir1 : IR) (consumerOp : Operation)
    (loopNest : TileLoopNest)
    (htile : env.tileConsumerAndFuseProducers ir consumerOp (env.getTileSizes ir consumerOp 1)
        (identityLoopOrder (env.getTileSizes ir consumerOp 1).length) = some (loopNest, ir1))
    (hk : loopNest.loopOps.length ≤ env.kNumGPUDims)
    (hdistinct : (loopNest.loopOps.map ForOp.handle).Nodup) :
    ∃ ir2, tileAndDistributeToThreads env ir (some consumerOp) = .ok ir2 ∧
      (∀ i loop, loopNest.loopOps[i]? = some loop →
        ir2.attrs loop.handle .spirvDistribute
          = some (.IndexAttr ((loopNest.loopOps.length - 1 - i : Nat) : Int))) ∧
      (loopNest.loopOps.reverse.map fun loop => ir2.attrs loop.handle .spirvDistribute)
        = (List.range loopNest.loopOps.length).map fun d => some (.IndexAttr (d : Int)) := by
  refine ⟨distributeLoops loopNest.loopOps loopNest.loopOps.length 0
    (env.replaceAllUsesWith ir1 consumerOp loopNest), ?_, ?_⟩
  · simp [tileAndDistributeToThreads, htile, hk]
  have hpos : ∀ i loop, loopNest.loopOps[i]? = some loop →
      (distributeLoops loopNest.loopOps loopNest.loopOps.length 0
        (env.replaceAllUsesWith ir1 consumerOp loopNest)).attrs loop.handle .spirvDistribute
        = some (.IndexAttr ((loopNest.loopOps.length - 1 - i : Nat) : Int)) := by
    intro i loop hl
    have hi : i < loopNest.loopOps.length := (List.getElem?_eq_some.mp hl).1
    rw [(distributeLoops_attrs loopNest.loopOps hdistinct loopNest.loopOps.length 0 _).1
      i loop hi hl]
    congr 2
    omega
  refine ⟨hpos, ?_⟩
  apply List.ext_getElem?
  intro n
  by_cases hn : n < loopNest.loopOps.length
  · have hrev : loopNest.loopOps.reverse[n]?
        = loopNest.loopOps[loopNest.loopOps.length - 1 - n]? :=
      List.getElem?_reverse hn
    obtain ⟨loop, hloop⟩ : ∃ loop, loopNest.loopOps[loopNest.loopOps.length - 1 - n]? = some loop :=
      ⟨_, List.getElem?_eq_getElem (by omega)⟩
    rw [List.getElem?_map, List.getElem?_map, hrev, hloop, List.getElem?_range hn]
    simp only [Option.map_some']
    rw [hpos _ loop hloop]
    congr 3
    omega
  · have h1 : loopNest.loopOps.reverse.length ≤ n := by simpa using hn
    rw [List.getElem?_map, List.getElem?_map, List.getElem?_eq_none h1,
      List.getElem?_eq_none (by simpa using hn)]
    rfl

/-- Witness of C6: of the two loops made for a matmul the outer one carries
dimension 1 and the inner one dimension 0. -/
theorem tileAndDistributeToThreads_tags_witness :
    ∃ ir2, tileAndDistributeToThreads exampleEnv ⟨funcMatmul, noAttrs⟩
        (some (.op 3 .MatmulOp [])) = .ok ir2 ∧
      ir2.attrs 100 .spirvDistribute = some (.IndexAttr 1) ∧
      ir2.attrs 101 .spirvDistribute = some (.IndexAttr 0) := by
  obtain ⟨ir2, h1, h2, _⟩ := tileAndDistributeToThreads_tags exampleEnv
    ⟨funcMatmul, noAttrs⟩ ⟨funcMatmul, noAttrs⟩ (.op 3 .MatmulOp [])
    ⟨[⟨100, .constant 0, .constant 16, .constant 8⟩,
      ⟨101, .constant 0, .constant 16, .constant 8⟩]⟩
    rfl (by decide) (by decide)
  exact ⟨ir2, h1, h2 0 _ rfl, h2 1 _ rfl⟩

/-! ## Convolution window: the unroll factor -/

theorem isLinalgOp_of_isConvolutionOpInterface (op : Operation)
    (h : op.isConvolutionOpInterface = true) : op.isLinalgOp = true := by
  cases op with
  | ifOp _ _ _ => simp [Operation.isConvolutionOpInterface] at h
  | op _ k _ =>
    cases k <;> simp_all [Operation.isConvolutionOpInterface, Operation.isLinalgOp,
      OpKind.isConvolutionOpInterface, OpKind.isLinalgOp]

theorem foldl_setMarker_attrs (ops : List Operation) :
    ∀ (ir : IR),
      let ir2 := ops.foldl
        (fun ir op =>
          if getsReductionMarker op then
            ir.setAttr op.handle .kLinalgTransformMarker .tileReductionMarker
          else ir)
        ir
      ir2.funcOp = ir.funcOp ∧
      (∀ op ∈ ops, getsReductionMarker op = true →
        ir2.attrs op.handle .kLinalgTransformMarker = some .tileReductionMarker) ∧
      (∀ h name, ir2.attrs h name ≠ ir.attrs h name →
        name = .kLinalgTransformMarker ∧
          ∃ op ∈ ops, op.handle = h ∧ getsReductionMarker op = true) ∧
      (∀ h, ir.attrs h .kLinalgTransformMarker = some .tileReductionMarker →
        ir2.attrs h .kLinalgTransformMarker = some .tileReductionMarker) := by
  induction ops with
  | nil =>
    intro ir
    simp
  | cons a rest ih =>
    intro ir
    simp only [List.foldl_cons]
    obtain ⟨ih0, ih1, ih2, ih3⟩ := ih
      (if getsReductionMarker a then
        ir.setAttr a.handle .kLinalgTransformMarker .tileReductionMarker
      else ir)
    refine ⟨?_, ?_, ?_, ?_⟩
    · rw [ih0]
      split <;> rfl
    · intro op hop hmark
      rcases List.mem_cons.mp hop with rfl | hmem
      · apply ih3
        simp [hmark, IR.setAttr]
      · exact ih1 op hmem hmark
    · intro h name hne
      by_cases hstep : (if getsReductionMarker a then
          ir.setAttr a.handle .kLinalgTransformMarker .tileReductionMarker
          else ir).attrs h name = ir.attrs h name
      · rw [← hstep] at hne
        obtain ⟨hn, op, hmem, hh, hm⟩ := ih2 h name hne
        exact ⟨hn, op, List.mem_cons_of_mem _ hmem, hh, hm⟩
      · by_cases ha : getsReductionMarker a = true
        · simp only [ha, if_true, IR.setAttr] at hstep
          by_cases hc : h = a.handle ∧ name = .kLinalgTransformMarker
          · exact ⟨hc.2, a, List.mem_cons_self _ _, hc.1.symm, ha⟩
          · simp [hc] at hstep
        · simp [ha] at hstep
    · intro h hh
      apply ih3
      split
      · simp only [IR.setAttr]
        split <;> simp_all
      · exact hh

/-- C9, refuted as stated: the 1-D convolution `linalg.conv_1d_nwc_wcf` of
`funcConv1D` implements the convolution interface and receives the marker,
and it is none of the six classes the tiling patterns are registered for. -/
theorem conv1D_marked_without_pattern :
    funcConv1D.walk = [.op 1 .FillOp [], .op 2 .Conv1DNwcWcfOp [], funcConv1D] ∧
      (setReductionMarkers ⟨funcConv1D, noAttrs⟩).attrs 2 .kLinalgTransformMarker
        = some .tileReductionMarker ∧
      OpKind.Conv1DNwcWcfOp ∉ tilingReductionKinds :=
  ⟨rfl, rfl, by decide⟩

/-- C9, amended: the marking walk of `tileReduction` attaches the marker to
every linalg operation of the function that implements the contraction
interface, implements the convolution interface or is a generic operation, and
changes no attribute of any other operation; every operation of the six
classes with a registered tiling pattern is among the marked ones. -/
theorem setReductionMarkers_marks (ir : IR) :
    (∀ op ∈ ir.funcOp.walk, op.isLinalgOp = true → getsReductionMarker op = true →
      (setReductionMarkers ir).attrs op.handle .kLinalgTransformMarker
        = some .tileReductionMarker) ∧
    (∀ h name, (setReductionMarkers ir).attrs h name ≠ ir.attrs h name →
      name = .kLinalgTransformMarker ∧
        ∃ op ∈ ir.funcOp.walk, op.handle = h ∧ op.isLinalgOp = true ∧
          getsReductionMarker op = true) ∧
    (∀ op ∈ ir.funcOp.walk, ∀ k ∈ tilingReductionKinds, op.kind? = some k →
      (setReductionMarkers ir).attrs op.handle .kLinalgTransformMarker
        = some .tileReductionMarker) := by
  obtain ⟨_, h1, h2, _⟩ := foldl_setMarker_attrs (ir.funcOp.walk.filter Operation.isLinalgOp) ir
  have hmarked : ∀ op ∈ ir.funcOp.walk, op.isLinalgOp = true → getsReductionMarker op = true →
      (setReductionMarkers ir).attrs op.handle .kLinalgTransformMarker
        = some .tileReductionMarker :=
    fun op hop hl hm => h1 op (List.mem_filter.mpr ⟨hop, hl⟩) hm
  refine ⟨hmarked, ?_, ?_⟩
  · intro h name hne
    obtain ⟨hn, op, hmem, hh, hm⟩ := h2 h name hne
    obtain ⟨hw, hl⟩ := List.mem_filter.mp hmem
    exact ⟨hn, op, hw, hh, hl, hm⟩
  · intro op hop k hk hkind
    cases op with
    | ifOp _ _ _ => simp [Operation.kind?] at hkind
    | op hd k2 rs =>
      simp only [Operation.kind?, Option.some.injEq] at hkind
      subst hkind
      apply hmarked _ hop
      · simp only [tilingReductionKinds, List.mem_cons, List.mem_singleton,
          List.mem_nil_iff, or_false] at hk
        rcases hk with rfl | rfl | rfl | rfl | rfl | rfl <;> rfl
      · simp only [tilingReductionKinds, List.mem_cons, List.mem_singleton,
          List.mem_nil_iff, or_false] at hk
        rcases hk with rfl | rfl | rfl | rfl | rfl | rfl <;> rfl

/-! ## The pass: order of the stages and failure -/

/-- C10, at the failing input: in `funcSortInBranch` the branch scan picks the
sort, which implements the tiling interface only; `dyn_cast<linalg::LinalgOp>`
of it is null, `tileAndDistributeToThreads` is entered with the null handle and
the pass aborts on dereferencing it, whatever the collaborators do. -/
theorem runOnOperation_null_consumer (env : Env) :
    collectComputeOps env.getComputeOps funcSortInBranch []
        = (.success, [.op 2 .SortOp []]) ∧
      dyn_cast (.op 2 .SortOp []) = none ∧
      (runOnOperation env ⟨funcSortInBranch, noAttrs⟩).trace
        = [(.anchorSelection, .success), (.threadTiling (.op 2 .SortOp []), .abort)] ∧
      (runOnOperation env ⟨funcSortInBranch, noAttrs⟩).result = .aborted .nullDereference :=
  ⟨rfl, rfl, rfl, rfl⟩

/-- Witness of C9 amended: the matmul of `funcMatmul` is marked, the fill keeps
no marker. -/
theorem setReductionMarkers_marks_witness :
    (setReductionMarkers ⟨funcMatmul, noAttrs⟩).attrs 3 .kLinalgTransformMarker
        = some .tileReductionMarker ∧
      (setReductionMarkers ⟨funcMatmul, noAttrs⟩).attrs 2 .kLinalgTransformMarker = none := by
  have hwalk : funcMatmul.walk
      = [.op 1 .ConstantOp [], .op 2 .FillOp [], .op 3 .MatmulOp [], funcMatmul] := rfl
  have h := setReductionMarkers_marks ⟨funcMatmul, noAttrs⟩
  refine ⟨h.2.2 (.op 3 .MatmulOp []) (by simp [hwalk]) .MatmulOp (by decide) rfl, ?_⟩
  by_contra hne
  obtain ⟨_, op, hmem, hh, _, hm⟩ := h.2.1 2 .kLinalgTransformMarker hne
  simp only [hwalk, List.mem_cons, List.mem_singleton, List.mem_nil_iff, or_false] at hmem
  rcases hmem with rfl | rfl | rfl | rfl <;> simp_all [Operation.handle, funcMatmul, getsReductionMarker,
    Operation.isContractionOpInterface, Operation.isConvolutionOpInterface,
    Operation.isGenericOp, OpKind.isContractionOpInterface, OpKind.isConvolutionOpInterface]

end SPIRVTile
